import Mathlib

/-!
# Verification of the foodome synonym-scraping pipelines

Shallow embedding of the two pipelines of this repository:

* `scrape_opentree_synonyms.py` — resolves scientific names against a
  taxonomic name-resolution service in batches of 40 and writes the
  `synonyms_open_tree_of_life` column;
* `scrape_wikisearch_synonyms.py` — resolves names against a knowledge
  graph and writes the `synonyms_wiki_search` column.

Python strings are modelled as Lean `String`s, with the string operations
used by the code (`replace("_", " ")`, `.strip()`, `.lower()`, slicing,
`"; ".join`, code-point comparison) re-implemented over the underlying
character list so that every definition evaluates by kernel reduction.
CSV rows are modelled as a record with the six columns the pipelines read
and write (per the fixed output schema of both scripts).  Remote calls are
modelled as oracle functions passed to the run; a transport failure
(`requests.RequestException`) is an `Except.error`.
-/

namespace Foodome

/-- Embeds Python `str.replace("_", " ")`: the pattern is a single
character, so the substring replacement is a character-wise map. -/
def pyReplaceUnderscores (s : String) : String :=
  ⟨s.data.map (fun c => if c = '_' then ' ' else c)⟩

/-- Strips leading and trailing whitespace characters from a character
list, as Python `str.strip()` does. -/
def pyStripChars (l : List Char) : List Char :=
  ((l.dropWhile Char.isWhitespace).reverse.dropWhile Char.isWhitespace).reverse

/-- Embeds Python `str.strip()`. -/
def pyStrip (s : String) : String :=
  ⟨pyStripChars s.data⟩

/-- Embeds Python `str.lower()`. -/
def pyLower (s : String) : String :=
  ⟨s.data.map Char.toLower⟩

/-- Code-point lexicographic comparison of character lists: the order
Python uses to compare and sort strings. -/
def lexLe : List Char → List Char → Bool
  | [], _ => true
  | _ :: _, [] => false
  | a :: as, b :: bs =>
    if a.toNat < b.toNat then true
    else if b.toNat < a.toNat then false
    else lexLe as bs

/-- Python's `≤` on strings (code-point lexicographic order). -/
def pyStrLE (a b : String) : Prop :=
  lexLe a.data b.data = true

instance instDecPyStrLE : DecidableRel pyStrLE :=
  fun a b => decidable_of_iff (lexLe a.data b.data = true) Iff.rfl

/-- Embeds `collections.OrderedDict.fromkeys`: drop duplicates, keeping the
first occurrence; `seen` accumulates the keys already kept. -/
def dedupKeepFirst {α : Type} [DecidableEq α] (seen : List α) : List α → List α
  | [] => []
  | a :: rest =>
    if a ∈ seen then dedupKeepFirst seen rest
    else a :: dedupKeepFirst (a :: seen) rest

/-- Embeds `"; ".join(...)`. -/
def joinSemi : List String → String
  | [] => ""
  | [s] => s
  | s :: rest => ⟨s.data ++ (';' :: ' ' :: (joinSemi rest).data)⟩

/-- Structural worker for `chunksOf`; `fuel` bounds the number of chunks
and is instantiated with the list length, which suffices whenever the
chunk size is positive. -/
def chunksOfGo {α : Type} (n : Nat) : Nat → List α → List (List α)
  | _, [] => []
  | 0, _ :: _ => []
  | fuel + 1, a :: rest => (a :: rest).take n :: chunksOfGo n fuel ((a :: rest).drop n)

/-- Embeds the Python batching idiom
`range(0, len(l), n)` / `l[start : start + n]` used by both scripts. -/
def chunksOf {α : Type} (n : Nat) (l : List α) : List (List α) :=
  chunksOfGo n l.length l

/-! ## `scrape_opentree_synonyms.py` -/

/-- `format_scientific_name`: `name.replace("_", " ").strip()`. -/
def format_scientific_name (name : String) : String :=
  pyStrip (pyReplaceUnderscores name)

/-- One candidate taxon returned by the taxonomic match API for a query
(`matches` entry): confidence score (a JSON decimal, modelled as a
rational), the two flags, and the `taxon.synonyms` payload (the code's
`taxon.get("synonyms") or []` makes a missing payload the empty list). -/
structure OTMatch where
  score : ℚ
  is_synonym : Bool
  is_approximate_match : Bool
  taxon_synonyms : List String
deriving DecidableEq

/-- `sorted(matches, key=lambda m: m.get("score", 0), reverse=True)`:
Python's sort is stable, and `List.insertionSort` with this relation is
the stable descending sort by score. -/
def sortByScoreDesc (cands : List OTMatch) : List OTMatch :=
  List.insertionSort (fun a b => b.score ≤ a.score) cands

/-- `select_best_match`: pick, from the score-sorted candidates, the first
that is neither a synonym nor approximate; else the first that is not a
synonym; else the top-scoring candidate (`sorted_matches[0]`). -/
def select_best_match (cands : List OTMatch) : Option OTMatch :=
  if cands.isEmpty then none
  else
    let sorted_matches := sortByScoreDesc cands
    match sorted_matches.find? (fun m => !m.is_synonym && !m.is_approximate_match) with
    | some m => some m
    | none =>
      match sorted_matches.find? (fun m => !m.is_synonym) with
      | some m => some m
      | none => sorted_matches.head?

/-- Modelled from the spec: the Match Selection contract for the taxonomic
path, written from the spec's words ("sort candidates by descending
confidence score; prefer the first candidate that is neither a synonym
name nor an approximate match; else prefer the first candidate that is
not a synonym name; else accept the single highest-scoring candidate"). -/
def selectBestMatchContract (cands : List OTMatch) : Option OTMatch :=
  if cands.isEmpty then none
  else
    let ranked := sortByScoreDesc cands
    ((ranked.find? (fun m => !m.is_synonym && !m.is_approximate_match)).orElse
      (fun _ => (ranked.find? (fun m => !m.is_synonym)).orElse
        (fun _ => ranked.head?)))

/-- The synonym list `fetch_synonyms_batch` derives from one query's match
list: `select_best_match`, then the best match's `taxon.synonyms`
deduplicated exactly (`OrderedDict.fromkeys`), or `[]` with no match. -/
def bestMatchSynonyms (cands : List OTMatch) : List String :=
  match select_best_match cands with
  | some m => dedupKeepFirst [] m.taxon_synonyms
  | none => []

/-- The per-name loop of `fetch_synonyms_batch`: pair each name with the
synonym list from the response entry at its position (`results[idx] if
idx < len(results) else None`; a missing or falsy entry yields `[]`).
An entry is `some ms` when the response item is a truthy dict, with `ms`
its `matches` list. -/
def fetch_synonyms_batch (names : List String)
    (results : List (Option (List OTMatch))) : List (String × List String) :=
  names.enum.map (fun p =>
    (p.2, match results.get? p.1 with
          | some (some ms) => bestMatchSynonyms ms
          | _ => []))

/-- A CSV record with the six columns both scripts read and write:
`index_field` (the first column, name preserved), `food_com`, `food_sci`,
and the three synonym columns. -/
structure Row where
  row_id : String
  food_com : String
  food_sci : String
  synonyms_open_tree_of_life : String
  synonyms_wiki_search : String
  synonyms_ncbi : String
deriving DecidableEq

/-- The per-batch contribution to `synonyms_cache`: on transport failure
`{name: [] for name in batch}`, else `fetch_synonyms_batch`; each list is
then joined with `"; "`. -/
def opentreeBatchKVs (batch : List String)
    (resp : Except Unit (List (Option (List OTMatch)))) : List (String × String) :=
  match resp with
  | .error _ => batch.map (fun n => (n, joinSemi []))
  | .ok results => (fetch_synonyms_batch batch results).map (fun p => (p.1, joinSemi p.2))

/-- Writing a batch's pairs into the `synonyms_cache` dict, in order
(later writes to the same key win, as in a Python dict). The cache is a
partial map from formatted name to joined synonym string. -/
def updateCache (c : String → Option String) :
    List (String × String) → (String → Option String)
  | [] => c
  | kv :: rest => updateCache (fun n => if n = kv.1 then some kv.2 else c n) rest

/-- First-match lookup in a key-value list; agrees with the dict built by
`updateCache` whenever the keys are distinct. -/
def kvGet (kvs : List (String × String)) (name : String) : Option String :=
  (kvs.find? (fun kv => kv.1 = name)).map Prod.snd

/-- `sorted({name for name in formatted_names if name})`: the distinct
non-empty formatted names, in Python's sorted (code-point lexicographic)
order. -/
def uniqueNames (rows : List Row) : List String :=
  List.insertionSort pyStrLE
    (dedupKeepFirst []
      ((rows.map (fun r => format_scientific_name r.food_sci)).filter (fun n => n ≠ "")))

/-- `CHUNK_SIZE = 40`. -/
def CHUNK_SIZE : Nat := 40

/-- The bulk-lookup batches of the opentree run. -/
def opentreeBatches (rows : List Row) : List (List String) :=
  chunksOf CHUNK_SIZE (uniqueNames rows)

/-- The `synonyms_cache` dict after the batch loop of `main`, given the
remote responses `oracle` (one per batch; `Except.error` is a
`requests.RequestException`). -/
def synonymsCacheFold (batches : List (List String))
    (oracle : List String → Except Unit (List (Option (List OTMatch))))
    (c : String → Option String) : String → Option String :=
  match batches with
  | [] => c
  | b :: rest => synonymsCacheFold rest oracle (updateCache c (opentreeBatchKVs b (oracle b)))

/-- `main` of `scrape_opentree_synonyms.py` as a function of the parsed
input rows and the remote oracle: build the cache over the sorted unique
formatted names in batches of 40, then rebuild every row with only the
`synonyms_open_tree_of_life` column replaced
(`synonyms_cache.get(formatted_name, "") if formatted_name else ""`). -/
def runOpentree (rows : List Row)
    (oracle : List String → Except Unit (List (Option (List OTMatch)))) : List Row :=
  let cache := synonymsCacheFold (opentreeBatches rows) oracle (fun _ => none)
  rows.map (fun r =>
    let fn := format_scientific_name r.food_sci
    { r with synonyms_open_tree_of_life :=
        if fn = "" then "" else (cache fn).getD "" })

/-! ## `scrape_wikisearch_synonyms.py` -/

/-- `format_common_name`: `name.replace("_", " ").strip()`. -/
def format_common_name (name : String) : String :=
  pyStrip (pyReplaceUnderscores name)

/-- `build_key`: prefer the non-empty formatted scientific name (tag
`"sci"`), else the non-empty formatted common name (tag `"com"`), else a
row-fallback key from the positional index (tag `"row"`). -/
def build_key (scientific common : String) (fallback_index : Nat) : String × String :=
  let sci := format_scientific_name scientific
  if sci ≠ "" then ("sci", sci)
  else
    let com := format_common_name common
    if com ≠ "" then ("com", com)
    else ("row", toString fallback_index)

/-- Embeds Python `s.endswith(suffix)`. -/
def pyEndsWith (s suffix : String) : Bool :=
  suffix.data.isSuffixOf s.data

/-- Embeds `s.rsplit(" ", 1)[0]`: everything before the last space, or `s`
itself when it contains no space. -/
def pyDropLastWord (s : String) : String :=
  if ' ' ∈ s.data then
    ⟨((s.data.reverse.dropWhile (fun c => c ≠ ' ')).drop 1).reverse⟩
  else s

/-- The `candidates` list of `candidate_queries` before filtering and
deduplication: the formatted scientific name; its variant with the
trailing period dropped (`sci[:-1]`) when it ends with `"."`; its variant
with the trailing rank token dropped when its lowercase form ends with
`" sp."`, `" sp"`, `" spp."` or `" spp"`; then the formatted common name. -/
def rawCandidates (scientific common : String) : List String :=
  let sci := format_scientific_name scientific
  let com := format_common_name common
  (if sci ≠ "" then
    [sci]
    ++ (if pyEndsWith sci "." then [⟨sci.data.dropLast⟩] else [])
    ++ (let lower := pyLower sci
        if pyEndsWith lower " sp." || pyEndsWith lower " sp"
            || pyEndsWith lower " spp." || pyEndsWith lower " spp" then
          [pyDropLastWord sci]
        else [])
  else [])
  ++ (if com ≠ "" then [com] else [])

/-- `candidate_queries`:
`list(OrderedDict.fromkeys([c for c in candidates if c]))`. -/
def candidate_queries (scientific common : String) : List String :=
  dedupKeepFirst [] ((rawCandidates scientific common).filter (fun c => c ≠ ""))

/-- One ranked result of the `wbsearchentities` fuzzy search: the `label`
and `match.text` fields (absent modelled as `none`; the code's
`(... or "")` turns both an absent and an empty value into `""`) and the
entity `id`. -/
structure WSearchResult where
  label : Option String
  match_text : Option String
  id : String
deriving DecidableEq

/-- The selection logic of `search_entity_id` applied to the ranked
results of one fuzzy-search response (the transport part of the function
returns `None` before reaching this logic on failure): first result with
an exact case-insensitive label match, else first with `match.text` equal
to the query, else `results[0]`. -/
def search_entity_id (query : String) (results : List WSearchResult) : Option String :=
  if results.isEmpty then none
  else
    let query_lower := pyLower query
    match results.find? (fun r => pyLower (r.label.getD "") = query_lower) with
    | some r => some r.id
    | none =>
      match results.find? (fun r => pyLower (r.match_text.getD "") = query_lower) with
      | some r => some r.id
      | none => results.head?.map (fun r => r.id)

/-- Modelled from the spec: the Match Selection contract for the fuzzy
search path, written from the spec's words ("prefer a result whose label
exactly equals the query string (case-insensitive); else prefer a result
whose internal matched-text field exactly equals the query string
(case-insensitive); else take the top-ranked result"). -/
def searchSelectContract (query : String) (results : List WSearchResult) : Option String :=
  if results.isEmpty then none
  else
    let ql := pyLower query
    (((results.find? (fun r => pyLower (r.label.getD "") = ql)).orElse
        (fun _ => (results.find? (fun r => pyLower (r.match_text.getD "") = ql)).orElse
          (fun _ => results.head?))).map (fun r => r.id))

/-- The cleaning loop of `main` (lines 459-474): strip each candidate,
drop empties, drop any candidate equal to the canonical name after
lowercasing, and drop candidates whose lowercase form was already seen,
keeping first occurrences. `seen` is the `seen_lower` set. -/
def cleanLoop (canonLower : String) (seen : List String) : List String → List String
  | [] => []
  | item :: rest =>
    let c := pyStrip item
    if c = "" then cleanLoop canonLower seen rest
    else if pyLower c = canonLower then cleanLoop canonLower seen rest
    else if pyLower c ∈ seen then cleanLoop canonLower seen rest
    else c :: cleanLoop canonLower (pyLower c :: seen) rest

/-- The cleaned synonym list for a key with canonical name `canonical`,
from the combined `aliases + synonym labels` list. -/
def cleanSynonyms (canonical : String) (combined : List String) : List String :=
  cleanLoop (pyLower canonical) [] combined

/-- The string written into `key_to_synonyms[key]`:
`"; ".join(filtered)`. -/
def keyToSynonymsValue (key : String × String) (combined : List String) : String :=
  joinSemi (cleanSynonyms key.2 combined)

/-- The output-row loop of the wiki `main` (lines 476-492), from an
arbitrary `key_to_synonyms` dict (modelled as an optional map; the code's
`key_to_synonyms.get(key, "")` is `getD ""`): each row keeps every field
except `synonyms_wiki_search`, which is replaced by the value for the
row's key. `idx` is the running `enumerate` index. -/
def wikiUpdateRowsFrom (keyToSyn : String × String → Option String) (idx : Nat) :
    List Row → List Row
  | [] => []
  | r :: rest =>
    { r with synonyms_wiki_search :=
        (keyToSyn (build_key r.food_sci r.food_com idx)).getD "" }
      :: wikiUpdateRowsFrom keyToSyn (idx + 1) rest

/-- The full output-row reconstruction of the wiki `main`. -/
def wikiUpdateRows (keyToSyn : String × String → Option String) (rows : List Row) : List Row :=
  wikiUpdateRowsFrom keyToSyn 0 rows

/-! ## Concrete inputs used by counterexamples and witnesses -/

/-- A single catalog row with scientific name `"Zea_mays"`. -/
def zeaRow : Row := ⟨"1", "corn", "Zea_mays", "", "", "x"⟩

/-- A taxonomic match whose taxon lists the matched name itself among its
synonyms, as the service may return. -/
def zeaSelfMatch : OTMatch := ⟨1, false, false, ["Zea mays", "maize"]⟩

/-- Oracle answering the single batch `["Zea mays"]` with
`zeaSelfMatch`. -/
def oracleSelf : List String → Except Unit (List (Option (List OTMatch)))
  | ["Zea mays"] => .ok [some [zeaSelfMatch]]
  | _ => .error ()

/-- A taxonomic match whose taxon synonyms differ only in letter case. -/
def zeaCaseMatch : OTMatch := ⟨1, false, false, ["Maize", "maize"]⟩

/-- Oracle answering the single batch `["Zea mays"]` with
`zeaCaseMatch`. -/
def oracleCase : List String → Except Unit (List (Option (List OTMatch)))
  | ["Zea mays"] => .ok [some [zeaCaseMatch]]
  | _ => .error ()

/-- Oracle for which every bulk request fails with a transport error. -/
def oracleFail : List String → Except Unit (List (Option (List OTMatch))) :=
  fun _ => .error ()

/-- The spec's tie-break example, score 0.9, approximate. -/
def exApprox : OTMatch := ⟨mkRat 9 10, false, true, []⟩

/-- The spec's tie-break example, score 0.8, clean. -/
def exClean : OTMatch := ⟨mkRat 8 10, false, false, []⟩

/-- The spec's tie-break example, score 0.95, synonym-flagged. -/
def exSyn : OTMatch := ⟨mkRat 95 100, true, false, []⟩

/-- A row with scientific name `"Zea_mays"` (underscore separator). -/
def rowUnderscore : Row := ⟨"1", "corn", "Zea_mays", "", "", ""⟩

/-- A row with scientific name `"Zea mays"` (space separator). -/
def rowSpace : Row := ⟨"2", "maiz", "Zea mays", "", "", ""⟩

/-! ## The wiki bulk title-resolution phase

The front end of the wiki `main` (lines 364-385) builds `name_candidates`
(first occurrence per key, skipping rows with no queries) and
`title_to_keys` (keys grouped under their primary title, titles in first
appearance order); `fetch_entities_for_titles` (lines 162-235) then
resolves the titles in batches of 40, marking a whole batch's keys
unmatched on a transport failure. -/

/-- Embeds Python `s.replace(" ", "_")` (used for primary titles, line
377, and sitelink titles, line 221). -/
def pyUnderscoreSpaces (s : String) : String :=
  ⟨s.data.map (fun c => if c = ' ' then '_' else c)⟩

/-- The primary title of a key's candidate query list (lines 376-378):
`queries[0].replace(" ", "_")`, skipped when empty (`if title:`); `none`
also covers the impossible empty-queries case. -/
def primaryTitle (queries : List String) : Option String :=
  match queries with
  | [] => none
  | primary :: _ =>
    if pyUnderscoreSpaces primary = "" then none else some (pyUnderscoreSpaces primary)

/-- Keyed keep-first deduplication: the `dict.setdefault` idiom of the
`name_candidates` loop — an entry is appended only when its key has not
been seen. -/
def dedupByKeyFirst {α β : Type} [DecidableEq α] (seen : List α) :
    List (α × β) → List (α × β)
  | [] => []
  | p :: rest =>
    if p.1 ∈ seen then dedupByKeyFirst seen rest
    else p :: dedupByKeyFirst (p.1 :: seen) rest

/-- The per-row `(key, queries)` sequence of the `name_candidates` loop
(lines 366-372), before the `setdefault` deduplication: rows whose
candidate query list is empty are skipped. -/
def wikiRowEntries (rows : List Row) : List ((String × String) × List String) :=
  rows.enum.filterMap (fun p =>
    if candidate_queries p.2.food_sci p.2.food_com = [] then none
    else some (build_key p.2.food_sci p.2.food_com p.1,
               candidate_queries p.2.food_sci p.2.food_com))

/-- `name_candidates` as its insertion-ordered entry list:
`setdefault` keeps the first entry per key. -/
def nameCandidatesList (rows : List Row) : List ((String × String) × List String) :=
  dedupByKeyFirst [] (wikiRowEntries rows)

/-- `title_to_keys[title]`: the keys appended under `title`, in
`name_candidates` iteration order (lines 374-379). -/
def titleKeysOf (ncl : List ((String × String) × List String)) (title : String) :
    List (String × String) :=
  (ncl.filter (fun p => primaryTitle p.2 = some title)).map Prod.fst

/-- `titles = list(title_to_keys.keys())` (line 170): the distinct
primary titles in first-appearance order. -/
def wikiTitles (rows : List Row) : List String :=
  dedupKeepFirst [] ((nameCandidatesList rows).filterMap (fun p => primaryTitle p.2))

/-- `TITLE_CHUNK_SIZE = 40`. -/
def TITLE_CHUNK_SIZE : Nat := 40

/-- The bulk title batches of `fetch_entities_for_titles`
(lines 182-183). -/
def wikiTitleBatches (rows : List Row) : List (List String) :=
  chunksOf TITLE_CHUNK_SIZE (wikiTitles rows)

/-- One entity record of a bulk `wbgetentities` response, keyed by its
entity id: whether it is a missing marker (`entity.get("missing") == ""`),
its `title` field (present on missing markers), and its enwiki sitelink
title. The alias/claims payload flows into the separately embedded
aggregation and is not needed for resolution. -/
structure WEntity where
  missing : Bool
  title : Option String
  enwiki_title : Option String
deriving DecidableEq

/-- The `title_entity_map` built from one bulk response (lines 210-223):
skip missing markers, skip entities with no (or empty) enwiki sitelink
title, and key each surviving entity by its underscored sitelink title;
later entries overwrite earlier ones as in a Python dict. -/
def wikiTitleEntityMap (entities : List (String × WEntity)) :
    String → Option (String × WEntity) :=
  entities.foldl (fun m p =>
    if p.2.missing then m
    else
      match p.2.enwiki_title with
      | none => m
      | some t =>
        if t = "" then m
        else fun q => if q = pyUnderscoreSpaces t then some (p.1, p.2) else m q)
    (fun _ => none)

/-- Titles of missing-marker entities with a non-empty `title` field,
added to `unresolved_titles` while the response is parsed
(lines 212-216). -/
def missingTitles (entities : List (String × WEntity)) : List String :=
  entities.filterMap (fun p =>
    if p.2.missing then
      match p.2.title with
      | none => none
      | some t => if t = "" then none else some t
    else none)

/-- The mutable state of the bulk loop: the `key_to_qid` binding (the
`key_to_entity` dict is updated in lockstep with it, lines 229-231, so
the qid binding carries the resolution outcome), the `unmatched` key set
and the `unresolved_titles` set (sets modelled as accumulation lists;
only membership is observable). -/
structure WikiBulkState where
  keyQid : String × String → Option String
  unmatched : List (String × String)
  unresolvedTitles : List String

/-- Processing one requested title of a successful batch (lines 225-233):
a `title_entity_map` hit binds every key of the title to the entity's
qid; a miss adds the title to `unresolved_titles`. -/
def wikiBindTitle (titleKeys : String → List (String × String))
    (emap : String → Option (String × WEntity))
    (st : WikiBulkState) (title : String) : WikiBulkState :=
  match emap title with
  | some qe =>
    { st with keyQid := fun k => if k ∈ titleKeys title then some qe.1 else st.keyQid k }
  | none => { st with unresolvedTitles := st.unresolvedTitles ++ [title] }

/-- The `for requested_title in batch` loop of a successful batch. -/
def wikiBindBatch (titleKeys : String → List (String × String))
    (emap : String → Option (String × WEntity))
    (batch : List String) (st : WikiBulkState) : WikiBulkState :=
  batch.foldl (wikiBindTitle titleKeys emap) st

/-- One iteration of the bulk batch loop: a transport failure
(lines 199-207) adds every key of every title of the batch to
`unmatched` and continues; a successful response is parsed and bound
(lines 209-233). -/
def wikiProcessBatch (titleKeys : String → List (String × String))
    (resp : Except Unit (List (String × WEntity)))
    (batch : List String) (st : WikiBulkState) : WikiBulkState :=
  match resp with
  | .error _ =>
    { st with unmatched := st.unmatched ++ (batch.map titleKeys).flatten }
  | .ok entities =>
    wikiBindBatch titleKeys (wikiTitleEntityMap entities) batch
      { st with unresolvedTitles := st.unresolvedTitles ++ missingTitles entities }

/-- The bulk batch loop, batches processed in order. -/
def wikiBulkFold (titleKeys : String → List (String × String))
    (oracle : List String → Except Unit (List (String × WEntity))) :
    List (List String) → WikiBulkState → WikiBulkState
  | [], st => st
  | b :: rest, st =>
    wikiBulkFold titleKeys oracle rest (wikiProcessBatch titleKeys (oracle b) b st)

/-- The bulk phase of `fetch_entities_for_titles` applied to the table's
rows, with the remote call modelled as a per-batch oracle
(`Except.error` is a `requests.RequestException`). -/
def wikiBulkRun (rows : List Row)
    (oracle : List String → Except Unit (List (String × WEntity))) : WikiBulkState :=
  wikiBulkFold (titleKeysOf (nameCandidatesList rows)) oracle (wikiTitleBatches rows)
    ⟨fun _ => none, [], []⟩

/-- Oracle for which every wiki bulk title request fails. -/
def wikiOracleFail : List String → Except Unit (List (String × WEntity)) :=
  fun _ => .error ()

/-! ## Library lemmas: deduplication -/

theorem mem_dedupKeepFirst {α : Type} [DecidableEq α] (l : List α) :
    ∀ (seen : List α) (x : α), x ∈ dedupKeepFirst seen l ↔ x ∈ l ∧ x ∉ seen := by
  induction l with
  | nil => simp [dedupKeepFirst]
  | cons a rest ih =>
    intro seen x
    by_cases ha : a ∈ seen
    · rw [dedupKeepFirst, if_pos ha, ih]
      constructor
      · rintro ⟨hx, hns⟩; exact ⟨List.mem_cons_of_mem _ hx, hns⟩
      · rintro ⟨hx, hns⟩
        rcases List.mem_cons.mp hx with rfl | hx
        · exact absurd ha hns
        · exact ⟨hx, hns⟩
    · rw [dedupKeepFirst, if_neg ha]
      constructor
      · intro hmem
        rcases List.mem_cons.mp hmem with rfl | hx
        · exact ⟨List.mem_cons_self _ _, ha⟩
        · obtain ⟨hxr, hns⟩ := (ih _ x).mp hx
          exact ⟨List.mem_cons_of_mem _ hxr,
            fun hs => hns (List.mem_cons_of_mem _ hs)⟩
      · rintro ⟨hx, hns⟩
        by_cases hxa : x = a
        · exact hxa ▸ List.mem_cons_self _ _
        · rcases List.mem_cons.mp hx with rfl | hxr
          · exact absurd rfl hxa
          · refine List.mem_cons_of_mem _ ((ih _ x).mpr ⟨hxr, fun hs => ?_⟩)
            rcases List.mem_cons.mp hs with h | h
            · exact hxa h
            · exact hns h

theorem nodup_dedupKeepFirst {α : Type} [DecidableEq α] (l : List α) :
    ∀ seen : List α, (dedupKeepFirst seen l).Nodup := by
  induction l with
  | nil => intro seen; simp [dedupKeepFirst]
  | cons a rest ih =>
    intro seen
    by_cases ha : a ∈ seen
    · simpa [dedupKeepFirst, if_pos ha] using ih seen
    · simp only [dedupKeepFirst, if_neg ha, List.nodup_cons]
      refine ⟨fun hmem => ?_, ih _⟩
      exact ((mem_dedupKeepFirst rest _ a).mp hmem).2 (List.mem_cons_self a _)

theorem dedupKeepFirst_sublist {α : Type} [DecidableEq α] (l : List α) :
    ∀ seen : List α, List.Sublist (dedupKeepFirst seen l) l := by
  induction l with
  | nil => intro seen; simp [dedupKeepFirst]
  | cons a rest ih =>
    intro seen
    by_cases ha : a ∈ seen
    · rw [dedupKeepFirst, if_pos ha]
      exact (ih seen).trans (List.sublist_cons_self a rest)
    · rw [dedupKeepFirst, if_neg ha]
      exact (ih (a :: seen)).cons₂ a

theorem dedupKeepFirst_eq_self {α : Type} [DecidableEq α] (l : List α) :
    ∀ seen : List α, l.Nodup → (∀ x ∈ l, x ∉ seen) → dedupKeepFirst seen l = l := by
  induction l with
  | nil => intro seen _ _; rfl
  | cons a rest ih =>
    intro seen hnd hout
    have ha : a ∉ seen := hout a (List.mem_cons_self a _)
    rw [dedupKeepFirst, if_neg ha, ih (a :: seen) (List.nodup_cons.mp hnd).2]
    intro x hx
    simp only [List.mem_cons, not_or]
    exact ⟨fun hxa => (List.nodup_cons.mp hnd).1 (hxa ▸ hx),
      hout x (List.mem_cons_of_mem _ hx)⟩

theorem dedupKeepFirst_idem {α : Type} [DecidableEq α] (l : List α) :
    dedupKeepFirst [] (dedupKeepFirst [] l) = dedupKeepFirst [] l :=
  dedupKeepFirst_eq_self _ [] (nodup_dedupKeepFirst l []) (by simp)

/-! ## Library lemmas: stripping -/

theorem dropWhile_dropWhile (p : Char → Bool) (l : List Char) :
    (l.dropWhile p).dropWhile p = l.dropWhile p := by
  induction l with
  | nil => rfl
  | cons a rest ih =>
    by_cases h : p a
    · simp [List.dropWhile_cons, h, ih]
    · simp [List.dropWhile_cons, h]

theorem dropWhile_head_false (p : Char → Bool) (l : List Char) :
    ∀ x, (l.dropWhile p).head? = some x → p x = false := by
  induction l with
  | nil => intro x hx; simp at hx
  | cons a rest ih =>
    intro x hx
    by_cases h : p a
    · exact ih x (by simpa [List.dropWhile_cons, h] using hx)
    · simp only [List.dropWhile_cons, if_neg h, List.head?_cons, Option.some.injEq] at hx
      subst hx
      exact Bool.eq_false_iff.mpr h

theorem dropWhile_eq_self_of_head (p : Char → Bool) (l : List Char)
    (h : ∀ x, l.head? = some x → p x = false) : l.dropWhile p = l := by
  cases l with
  | nil => rfl
  | cons a rest =>
    have := h a rfl
    simp [List.dropWhile_cons, this]

theorem pyStripChars_idem (l : List Char) : pyStripChars (pyStripChars l) = pyStripChars l := by
  have hA : (pyStripChars l).dropWhile Char.isWhitespace = pyStripChars l := by
    apply dropWhile_eq_self_of_head
    intro x hx
    rw [show pyStripChars l
        = ((l.dropWhile Char.isWhitespace).reverse.dropWhile Char.isWhitespace).reverse from rfl,
      List.head?_reverse] at hx
    obtain ⟨t, ht⟩ :=
      @List.dropWhile_suffix Char ((l.dropWhile Char.isWhitespace).reverse) Char.isWhitespace
    have hne : (l.dropWhile Char.isWhitespace).reverse.dropWhile Char.isWhitespace ≠ [] := by
      intro hnil; rw [hnil] at hx; simp at hx
    have hlast : (l.dropWhile Char.isWhitespace).reverse.getLast? = some x := by
      rw [← ht, List.getLast?_append_of_ne_nil _ hne]; exact hx
    have hrr := List.head?_reverse (l.dropWhile Char.isWhitespace).reverse
    rw [List.reverse_reverse] at hrr
    exact dropWhile_head_false _ _ x (hrr.trans hlast)
  have hB : (pyStripChars l).reverse.dropWhile Char.isWhitespace = (pyStripChars l).reverse := by
    rw [show pyStripChars l
        = ((l.dropWhile Char.isWhitespace).reverse.dropWhile Char.isWhitespace).reverse from rfl,
      List.reverse_reverse]
    exact dropWhile_dropWhile _ _
  show (((pyStripChars l).dropWhile Char.isWhitespace).reverse.dropWhile
      Char.isWhitespace).reverse = pyStripChars l
  rw [hA, hB, List.reverse_reverse]

theorem pyStrip_idem (s : String) : pyStrip (pyStrip s) = pyStrip s :=
  congrArg String.mk (pyStripChars_idem s.data)

/-! ## Library lemmas: the cleaning loop -/

theorem cleanLoop_mem (canonLower : String) (l : List String) :
    ∀ seen : List String, ∀ x ∈ cleanLoop canonLower seen l,
      pyStrip x = x ∧ x ≠ "" ∧ pyLower x ≠ canonLower ∧ pyLower x ∉ seen := by
  induction l with
  | nil => intro seen x hx; simp [cleanLoop] at hx
  | cons item rest ih =>
    intro seen x hx
    simp only [cleanLoop] at hx
    by_cases h1 : pyStrip item = ""
    · rw [if_pos h1] at hx; exact ih seen x hx
    · rw [if_neg h1] at hx
      by_cases h2 : pyLower (pyStrip item) = canonLower
      · rw [if_pos h2] at hx; exact ih seen x hx
      · rw [if_neg h2] at hx
        by_cases h3 : pyLower (pyStrip item) ∈ seen
        · rw [if_pos h3] at hx; exact ih seen x hx
        · rw [if_neg h3] at hx
          rcases List.mem_cons.mp hx with rfl | hx2
          · exact ⟨pyStrip_idem item, h1, h2, h3⟩
          · obtain ⟨ha, hb, hc, hd⟩ := ih _ x hx2
            exact ⟨ha, hb, hc, fun hs => hd (List.mem_cons_of_mem _ hs)⟩

theorem cleanLoop_pairwise (canonLower : String) (l : List String) :
    ∀ seen : List String,
      (cleanLoop canonLower seen l).Pairwise (fun a b => pyLower a ≠ pyLower b) := by
  induction l with
  | nil => intro seen; simp [cleanLoop]
  | cons item rest ih =>
    intro seen
    simp only [cleanLoop]
    by_cases h1 : pyStrip item = ""
    · rw [if_pos h1]; exact ih seen
    · rw [if_neg h1]
      by_cases h2 : pyLower (pyStrip item) = canonLower
      · rw [if_pos h2]; exact ih seen
      · rw [if_neg h2]
        by_cases h3 : pyLower (pyStrip item) ∈ seen
        · rw [if_pos h3]; exact ih seen
        · rw [if_neg h3]
          refine List.Pairwise.cons ?_ (ih _)
          intro b hb
          have hnb := (cleanLoop_mem canonLower rest _ b hb).2.2.2
          exact fun he => hnb (by rw [← he]; exact List.mem_cons_self _ _)

theorem cleanLoop_eq_self (canonLower : String) (l : List String) :
    ∀ seen : List String,
      (∀ x ∈ l, pyStrip x = x ∧ x ≠ "" ∧ pyLower x ≠ canonLower ∧ pyLower x ∉ seen) →
      l.Pairwise (fun a b => pyLower a ≠ pyLower b) →
      cleanLoop canonLower seen l = l := by
  induction l with
  | nil => intro seen _ _; rfl
  | cons item rest ih =>
    intro seen hall hpw
    obtain ⟨hs, hne, hnc, hnsn⟩ := hall item (List.mem_cons_self _ _)
    simp only [cleanLoop, hs]
    rw [if_neg hne, if_neg hnc, if_neg hnsn]
    congr 1
    apply ih
    · intro x hx
      obtain ⟨a1, a2, a3, a4⟩ := hall x (List.mem_cons_of_mem _ hx)
      refine ⟨a1, a2, a3, fun hmem => ?_⟩
      rcases List.mem_cons.mp hmem with he | he
      · exact (List.pairwise_cons.mp hpw).1 x hx he.symm
      · exact a4 he
    · exact (List.pairwise_cons.mp hpw).2

theorem cleanSynonyms_idem (canonical : String) (l : List String) :
    cleanSynonyms canonical (cleanSynonyms canonical l) = cleanSynonyms canonical l :=
  cleanLoop_eq_self _ _ _ (fun x hx => cleanLoop_mem _ _ _ x hx)
    (cleanLoop_pairwise _ _ _)

/-! ## Library lemmas: the code-point order -/

theorem lexLe_total : ∀ l1 l2 : List Char, lexLe l1 l2 = true ∨ lexLe l2 l1 = true := by
  intro l1
  induction l1 with
  | nil => intro l2; exact Or.inl rfl
  | cons a as ih =>
    intro l2
    cases l2 with
    | nil => exact Or.inr rfl
    | cons b bs =>
      simp only [lexLe]
      rcases Nat.lt_trichotomy a.toNat b.toNat with h | h | h
      · left; rw [if_pos h]
      · rw [if_neg (by omega), if_neg (by omega), if_neg (by omega), if_neg (by omega)]
        exact ih bs
      · right; rw [if_pos h]

theorem lexLe_trans : ∀ l1 l2 l3 : List Char,
    lexLe l1 l2 = true → lexLe l2 l3 = true → lexLe l1 l3 = true := by
  intro l1
  induction l1 with
  | nil => intro l2 l3 _ _; rfl
  | cons a as ih =>
    intro l2 l3 h12 h23
    cases l2 with
    | nil => simp [lexLe] at h12
    | cons b bs =>
      cases l3 with
      | nil => simp [lexLe] at h23
      | cons c cs =>
        simp only [lexLe] at h12 h23 ⊢
        by_cases hab : a.toNat < b.toNat
        · by_cases hbc : b.toNat < c.toNat
          · rw [if_pos (by omega)]
          · rw [if_neg hbc] at h23
            by_cases hcb : c.toNat < b.toNat
            · rw [if_pos hcb] at h23; exact absurd h23 (by simp)
            · rw [if_pos (by omega)]
        · rw [if_neg hab] at h12
          by_cases hba : b.toNat < a.toNat
          · rw [if_pos hba] at h12; exact absurd h12 (by simp)
          · rw [if_neg hba] at h12
            by_cases hbc : b.toNat < c.toNat
            · rw [if_pos (by omega)]
            · rw [if_neg hbc] at h23
              by_cases hcb : c.toNat < b.toNat
              · rw [if_pos hcb] at h23; exact absurd h23 (by simp)
              · rw [if_neg hcb] at h23
                rw [if_neg (by omega), if_neg (by omega)]
                exact ih bs cs h12 h23

instance instTotalPyStrLE : IsTotal String pyStrLE :=
  ⟨fun a b => lexLe_total a.data b.data⟩

instance instTransPyStrLE : IsTrans String pyStrLE :=
  ⟨fun a b c => lexLe_trans a.data b.data c.data⟩

instance instTotalScoreDesc : IsTotal OTMatch (fun a b => b.score ≤ a.score) :=
  ⟨fun a b => le_total b.score a.score⟩

instance instTransScoreDesc : IsTrans OTMatch (fun a b => b.score ≤ a.score) :=
  ⟨fun _ _ _ h1 h2 => le_trans h2 h1⟩

/-! ## Library lemmas: batching -/

theorem chunksOfGo_fuel {α : Type} (n : Nat) (hn : 0 < n) :
    ∀ (f1 f2 : Nat) (l : List α), l.length ≤ f1 → l.length ≤ f2 →
      chunksOfGo n f1 l = chunksOfGo n f2 l := by
  intro f1
  induction f1 with
  | zero =>
    intro f2 l h1 _
    have hl : l = [] := List.eq_nil_of_length_eq_zero (Nat.le_zero.mp h1)
    subst hl
    cases f2 <;> rfl
  | succ f ih =>
    intro f2 l h1 h2
    cases l with
    | nil => cases f2 <;> rfl
    | cons a rest =>
      cases f2 with
      | zero => simp at h2
      | succ g =>
        simp only [chunksOfGo]
        congr 1
        have h1' : rest.length ≤ f := by simp only [List.length_cons] at h1; omega
        have h2' : rest.length ≤ g := by simp only [List.length_cons] at h2; omega
        have hd : ((a :: rest).drop n).length ≤ rest.length := by
          simp only [List.length_drop, List.length_cons]; omega
        exact ih g _ (hd.trans h1') (hd.trans h2')

theorem flatten_chunksOfGo {α : Type} (n : Nat) (hn : 0 < n) :
    ∀ (fuel : Nat) (l : List α), l.length ≤ fuel → (chunksOfGo n fuel l).flatten = l := by
  intro fuel
  induction fuel with
  | zero =>
    intro l h
    have hl : l = [] := List.eq_nil_of_length_eq_zero (Nat.le_zero.mp h)
    subst hl; rfl
  | succ f ih =>
    intro l h
    cases l with
    | nil => rfl
    | cons a rest =>
      simp only [chunksOfGo, List.flatten_cons]
      rw [ih]
      · exact List.take_append_drop n (a :: rest)
      · simp only [List.length_drop, List.length_cons]
        simp only [List.length_cons] at h
        omega

theorem flatten_chunksOf {α : Type} (n : Nat) (hn : 0 < n) (l : List α) :
    (chunksOf n l).flatten = l :=
  flatten_chunksOfGo n hn l.length l le_rfl

theorem chunksOf_props {α : Type} (n : Nat) (hn : 0 < n) (l : List α) (hl : l.Nodup) :
    (∀ b ∈ chunksOf n l, b.Nodup) ∧ (chunksOf n l).Pairwise List.Disjoint ∧
      ∀ b ∈ chunksOf n l, ∀ x ∈ b, x ∈ l := by
  have hflat := flatten_chunksOf n hn l
  have hjn : (chunksOf n l).flatten.Nodup := by rw [hflat]; exact hl
  obtain ⟨h1, h2⟩ := List.nodup_flatten.mp hjn
  refine ⟨h1, h2, ?_⟩
  intro b hb x hx
  rw [← hflat]
  exact List.mem_flatten.mpr ⟨b, hb, hx⟩

/-! ## Library lemmas: the synonyms cache -/

theorem updateCache_not_mem (kvs : List (String × String)) :
    ∀ (c : String → Option String) (name : String), name ∉ kvs.map Prod.fst →
      updateCache c kvs name = c name := by
  induction kvs with
  | nil => intro c name _; rfl
  | cons kv rest ih =>
    intro c name hname
    simp only [List.map_cons, List.mem_cons, not_or] at hname
    simp only [updateCache]
    rw [ih _ name hname.2]
    simp [hname.1]

theorem updateCache_nodupKeys (kvs : List (String × String)) :
    ∀ (c : String → Option String) (name : String), (kvs.map Prod.fst).Nodup →
      updateCache c kvs name =
        match kvGet kvs name with
        | some v => some v
        | none => c name := by
  induction kvs with
  | nil => intro c name _; rfl
  | cons kv rest ih =>
    intro c name hnd
    simp only [List.map_cons, List.nodup_cons] at hnd
    simp only [updateCache]
    by_cases hk : kv.1 = name
    · have hnm : name ∉ rest.map Prod.fst := by rw [← hk]; exact hnd.1
      have hget : kvGet (kv :: rest) name = some kv.2 := by
        unfold kvGet
        rw [List.find?_cons_of_pos _ (by simpa using hk)]
        rfl
      rw [updateCache_not_mem rest _ name hnm, hget]
      simp [hk.symm]
    · have hget : kvGet (kv :: rest) name = kvGet rest name := by
        unfold kvGet
        rw [List.find?_cons_of_neg _ (by simpa using hk)]
      rw [ih _ name hnd.2, hget]
      cases hgr : kvGet rest name with
      | some v => rfl
      | none =>
        show (if name = kv.1 then some kv.2 else c name) = c name
        rw [if_neg (fun h => hk h.symm)]

theorem kvGet_isSome (kvs : List (String × String)) (name : String)
    (h : name ∈ kvs.map Prod.fst) : ∃ v, kvGet kvs name = some v := by
  obtain ⟨kv, hkv, hfst⟩ := List.mem_map.mp h
  have hs : (kvs.find? (fun kv => kv.1 = name)).isSome :=
    List.find?_isSome.mpr ⟨kv, hkv, by simp [hfst]⟩
  obtain ⟨r, hr⟩ := Option.isSome_iff_exists.mp hs
  exact ⟨r.2, by unfold kvGet; rw [hr]; rfl⟩

theorem opentreeBatchKVs_keys (b : List String)
    (resp : Except Unit (List (Option (List OTMatch)))) :
    (opentreeBatchKVs b resp).map Prod.fst = b := by
  cases resp with
  | error e => simp [opentreeBatchKVs, List.map_map, Function.comp_def]
  | ok results =>
    simp only [opentreeBatchKVs, fetch_synonyms_batch, List.map_map, Function.comp_def]
    exact List.enum_map_snd b

theorem synonymsCacheFold_not_mem
    (oracle : List String → Except Unit (List (Option (List OTMatch)))) :
    ∀ (batches : List (List String)) (c : String → Option String) (name : String),
      (∀ b ∈ batches, name ∉ b) →
      synonymsCacheFold batches oracle c name = c name := by
  intro batches
  induction batches with
  | nil => intro c name _; rfl
  | cons b rest ih =>
    intro c name hnm
    simp only [synonymsCacheFold]
    rw [ih _ name (fun b2 hb2 => hnm b2 (List.mem_cons_of_mem _ hb2))]
    apply updateCache_not_mem
    rw [opentreeBatchKVs_keys]
    exact hnm b (List.mem_cons_self _ _)

theorem synonymsCacheFold_spec
    (oracle : List String → Except Unit (List (Option (List OTMatch)))) :
    ∀ (batches : List (List String)) (c : String → Option String)
      (b : List String) (name : String),
      batches.Pairwise List.Disjoint → b ∈ batches → b.Nodup → name ∈ b →
      synonymsCacheFold batches oracle c name =
        kvGet (opentreeBatchKVs b (oracle b)) name := by
  intro batches
  induction batches with
  | nil => intro c b name _ hb _ _; simp at hb
  | cons b0 rest ih =>
    intro c b name hpw hb hnd hname
    simp only [synonymsCacheFold]
    rcases List.mem_cons.mp hb with rfl | hbr
    · have hrest : ∀ b2 ∈ rest, name ∉ b2 := fun b2 hb2 hn2 =>
        (List.pairwise_cons.mp hpw).1 b2 hb2 hname hn2
      rw [synonymsCacheFold_not_mem oracle rest _ name hrest]
      have hk : (opentreeBatchKVs b (oracle b)).map Prod.fst = b := opentreeBatchKVs_keys _ _
      rw [updateCache_nodupKeys _ _ _ (by rw [hk]; exact hnd)]
      obtain ⟨v, hv⟩ := kvGet_isSome _ name (by rw [hk]; exact hname)
      rw [hv]
    · exact ih _ b name (List.pairwise_cons.mp hpw).2 hbr hnd hname

theorem kvGet_of_error (b : List String) (name : String) (h : name ∈ b) :
    kvGet (opentreeBatchKVs b (.error ())) name = some "" := by
  unfold opentreeBatchKVs kvGet
  rw [List.find?_map]
  have hs : (b.find? (fun n => decide (n = name))).isSome :=
    List.find?_isSome.mpr ⟨name, h, by simp⟩
  obtain ⟨r, hr⟩ := Option.isSome_iff_exists.mp hs
  have hrn : r = name := by simpa using List.find?_some hr
  rw [show ((fun kv : String × String => decide (kv.1 = name)) ∘
      fun n => (n, joinSemi [])) = (fun n => decide (n = name)) from rfl]
  rw [hr]
  rfl

theorem uniqueNames_nodup (rows : List Row) : (uniqueNames rows).Nodup := by
  unfold uniqueNames
  exact ((List.perm_insertionSort pyStrLE _).symm).nodup (nodup_dedupKeepFirst _ [])

theorem mem_uniqueNames (rows : List Row) (r : Row) (hr : r ∈ rows)
    (hne : format_scientific_name r.food_sci ≠ "") :
    format_scientific_name r.food_sci ∈ uniqueNames rows := by
  unfold uniqueNames
  rw [(List.perm_insertionSort pyStrLE _).mem_iff, mem_dedupKeepFirst]
  exact ⟨List.mem_filter.mpr ⟨List.mem_map.mpr ⟨r, hr, rfl⟩, by simpa using hne⟩, by simp⟩

theorem exists_batch (rows : List Row) (name : String) (h : name ∈ uniqueNames rows) :
    ∃ b ∈ opentreeBatches rows, name ∈ b := by
  have hflat := flatten_chunksOf CHUNK_SIZE (by norm_num [CHUNK_SIZE]) (uniqueNames rows)
  rw [← hflat] at h
  exact List.mem_flatten.mp h

theorem uniqueNames_ne_empty (rows : List Row) (x : String) (h : x ∈ uniqueNames rows) :
    x ≠ "" := by
  unfold uniqueNames at h
  rw [(List.perm_insertionSort pyStrLE _).mem_iff, mem_dedupKeepFirst] at h
  have hf := List.mem_filter.mp h.1
  simpa using hf.2

/-! ## Run-level lemmas -/

theorem runOpentree_getElem (rows : List Row)
    (oracle : List String → Except Unit (List (Option (List OTMatch)))) (i : Nat) :
    (runOpentree rows oracle)[i]? = (rows[i]?).map (fun r =>
      { r with synonyms_open_tree_of_life :=
          if format_scientific_name r.food_sci = "" then ""
          else ((synonymsCacheFold (opentreeBatches rows) oracle (fun _ => none))
            (format_scientific_name r.food_sci)).getD "" }) := by
  unfold runOpentree
  rw [List.getElem?_map]

theorem runOpentree_length (rows : List Row)
    (oracle : List String → Except Unit (List (Option (List OTMatch)))) :
    (runOpentree rows oracle).length = rows.length := by
  unfold runOpentree
  rw [List.length_map]

theorem wikiUpdateRowsFrom_getElem (keyToSyn : String × String → Option String) :
    ∀ (rows : List Row) (idx i : Nat),
      (wikiUpdateRowsFrom keyToSyn idx rows)[i]? = (rows[i]?).map (fun r =>
        { r with synonyms_wiki_search :=
            (keyToSyn (build_key r.food_sci r.food_com (idx + i))).getD "" }) := by
  intro rows
  induction rows with
  | nil => intro idx i; simp [wikiUpdateRowsFrom]
  | cons r rest ih =>
    intro idx i
    cases i with
    | zero => simp [wikiUpdateRowsFrom]
    | succ j =>
      simp only [wikiUpdateRowsFrom, List.getElem?_cons_succ]
      rw [ih (idx + 1) j]
      have harith : idx + 1 + j = idx + (j + 1) := by omega
      rw [harith]

theorem wikiUpdateRowsFrom_length (keyToSyn : String × String → Option String) :
    ∀ (rows : List Row) (idx : Nat),
      (wikiUpdateRowsFrom keyToSyn idx rows).length = rows.length := by
  intro rows
  induction rows with
  | nil => intro idx; rfl
  | cons r rest ih => intro idx; simp [wikiUpdateRowsFrom, ih]

theorem wikiBindTitle_unmatched (tk : String → List (String × String))
    (emap : String → Option (String × WEntity)) (st : WikiBulkState) (t : String) :
    (wikiBindTitle tk emap st t).unmatched = st.unmatched := by
  unfold wikiBindTitle
  cases emap t <;> rfl

theorem wikiBindBatch_unmatched (tk : String → List (String × String))
    (emap : String → Option (String × WEntity)) :
    ∀ (batch : List String) (st : WikiBulkState),
      (wikiBindBatch tk emap batch st).unmatched = st.unmatched := by
  intro batch
  induction batch with
  | nil => intro st; rfl
  | cons t rest ih =>
    intro st
    show (wikiBindBatch tk emap rest (wikiBindTitle tk emap st t)).unmatched = _
    rw [ih, wikiBindTitle_unmatched]

theorem wikiBulkFold_unmatched_mem (tk : String → List (String × String))
    (oracle : List String → Except Unit (List (String × WEntity))) :
    ∀ (batches : List (List String)) (st : WikiBulkState) (key : String × String),
      (key ∈ (wikiBulkFold tk oracle batches st).unmatched ↔
        key ∈ st.unmatched ∨
          ∃ b ∈ batches, oracle b = .error () ∧ ∃ t ∈ b, key ∈ tk t) := by
  intro batches
  induction batches with
  | nil => intro st key; simp [wikiBulkFold]
  | cons b rest ih =>
    intro st key
    show key ∈ (wikiBulkFold tk oracle rest (wikiProcessBatch tk (oracle b) b st)).unmatched ↔ _
    rw [ih]
    cases ho : oracle b with
    | error e =>
      have hpu : (wikiProcessBatch tk (Except.error e) b st).unmatched
          = st.unmatched ++ (b.map tk).flatten := rfl
      rw [hpu]
      constructor
      · rintro (hm | hrest)
        · rcases List.mem_append.mp hm with h1 | h2
          · exact Or.inl h1
          · refine Or.inr ⟨b, List.mem_cons_self _ _, by cases e; exact ho, ?_⟩
            obtain ⟨l, hl, hkl⟩ := List.mem_flatten.mp h2
            obtain ⟨t, ht, rfl⟩ := List.mem_map.mp hl
            exact ⟨t, ht, hkl⟩
        · obtain ⟨b2, hb2, he2, ht2⟩ := hrest
          exact Or.inr ⟨b2, List.mem_cons_of_mem _ hb2, he2, ht2⟩
      · rintro (h1 | ⟨b2, hb2, he2, t, ht, hkt⟩)
        · exact Or.inl (List.mem_append.mpr (Or.inl h1))
        · rcases List.mem_cons.mp hb2 with rfl | hb2r
          · exact Or.inl (List.mem_append.mpr (Or.inr
              (List.mem_flatten.mpr ⟨tk t, List.mem_map.mpr ⟨t, ht, rfl⟩, hkt⟩)))
          · exact Or.inr ⟨b2, hb2r, he2, t, ht, hkt⟩
    | ok entities =>
      have hpu : (wikiProcessBatch tk (Except.ok entities) b st).unmatched = st.unmatched := by
        show (wikiBindBatch tk (wikiTitleEntityMap entities) b
          { st with unresolvedTitles := st.unresolvedTitles ++ missingTitles entities }).unmatched
            = _
        rw [wikiBindBatch_unmatched]
      rw [hpu]
      constructor
      · rintro (h1 | hrest)
        · exact Or.inl h1
        · obtain ⟨b2, hb2, he2, ht2⟩ := hrest
          exact Or.inr ⟨b2, List.mem_cons_of_mem _ hb2, he2, ht2⟩
      · rintro (h1 | ⟨b2, hb2, he2, t, ht, hkt⟩)
        · exact Or.inl h1
        · rcases List.mem_cons.mp hb2 with rfl | hb2r
          · rw [ho] at he2
            exact absurd he2 (by simp)
          · exact Or.inr ⟨b2, hb2r, he2, t, ht, hkt⟩

theorem wikiBindTitle_keyQid (tk : String → List (String × String))
    (emap : String → Option (String × WEntity)) (st : WikiBulkState) (t : String)
    (key : String × String) (q : String)
    (h : (wikiBindTitle tk emap st t).keyQid key = some q) :
    st.keyQid key = some q ∨ (key ∈ tk t ∧ ∃ e, emap t = some (q, e)) := by
  cases he : emap t with
  | none =>
    left
    have hb : wikiBindTitle tk emap st t
        = { st with unresolvedTitles := st.unresolvedTitles ++ [t] } := by
      unfold wikiBindTitle
      rw [he]
    rw [hb] at h
    exact h
  | some qe =>
    have hb : wikiBindTitle tk emap st t
        = { st with keyQid := fun k => if k ∈ tk t then some qe.1 else st.keyQid k } := by
      unfold wikiBindTitle
      rw [he]
    rw [hb] at h
    by_cases hm : key ∈ tk t
    · right
      have hq : qe.1 = q := Option.some.inj (by simpa [hm] using h)
      exact ⟨hm, qe.2, by rw [← hq]⟩
    · left
      simpa [hm] using h

theorem wikiBindBatch_keyQid (tk : String → List (String × String))
    (emap : String → Option (String × WEntity)) :
    ∀ (batch : List String) (st : WikiBulkState) (key : String × String) (q : String),
      (wikiBindBatch tk emap batch st).keyQid key = some q →
      st.keyQid key = some q ∨ ∃ t ∈ batch, key ∈ tk t ∧ ∃ e, emap t = some (q, e) := by
  intro batch
  induction batch with
  | nil => intro st key q h; exact Or.inl h
  | cons t rest ih =>
    intro st key q h
    rcases ih (wikiBindTitle tk emap st t) key q h with h1 | ⟨t2, ht2, hk2, he2⟩
    · rcases wikiBindTitle_keyQid tk emap st t key q h1 with h2 | h3
      · exact Or.inl h2
      · exact Or.inr ⟨t, List.mem_cons_self _ _, h3.1, h3.2⟩
    · exact Or.inr ⟨t2, List.mem_cons_of_mem _ ht2, hk2, he2⟩

theorem wikiProcessBatch_keyQid (tk : String → List (String × String))
    (resp : Except Unit (List (String × WEntity))) (b : List String)
    (st : WikiBulkState) (key : String × String) (q : String)
    (h : (wikiProcessBatch tk resp b st).keyQid key = some q) :
    st.keyQid key = some q ∨
      ∃ entities, resp = .ok entities ∧ ∃ t ∈ b, key ∈ tk t ∧
        ∃ e, wikiTitleEntityMap entities t = some (q, e) := by
  cases resp with
  | error e => exact Or.inl h
  | ok entities =>
    rcases wikiBindBatch_keyQid tk (wikiTitleEntityMap entities) b
        { st with unresolvedTitles := st.unresolvedTitles ++ missingTitles entities }
        key q h with h1 | ⟨t, ht, hk, he⟩
    · exact Or.inl h1
    · exact Or.inr ⟨entities, rfl, t, ht, hk, he⟩

theorem wikiBulkFold_keyQid (tk : String → List (String × String))
    (oracle : List String → Except Unit (List (String × WEntity))) :
    ∀ (batches : List (List String)) (st : WikiBulkState) (key : String × String)
      (q : String),
      (wikiBulkFold tk oracle batches st).keyQid key = some q →
      st.keyQid key = some q ∨
        ∃ b ∈ batches, ∃ entities, oracle b = .ok entities ∧
          ∃ t ∈ b, key ∈ tk t ∧ ∃ e, wikiTitleEntityMap entities t = some (q, e) := by
  intro batches
  induction batches with
  | nil => intro st key q h; exact Or.inl h
  | cons b rest ih =>
    intro st key q h
    rcases ih (wikiProcessBatch tk (oracle b) b st) key q h with h1 | ⟨b2, hb2, hrest⟩
    · rcases wikiProcessBatch_keyQid tk (oracle b) b st key q h1 with h2 | ⟨entities, heq, htl⟩
      · exact Or.inl h2
      · exact Or.inr ⟨b, List.mem_cons_self _ _, entities, heq, htl⟩
    · exact Or.inr ⟨b2, List.mem_cons_of_mem _ hb2, hrest⟩

/-- Claim C1, counterexample: the claim says that for every key processed
by either pipeline, the final synonym string never contains an entry equal
to the key's own canonical name (case-insensitively). The opentree
pipeline never filters the canonical name: when the service returns the
matched name itself among the taxon synonyms (here `"Zea mays"` for the
key `"Zea mays"`), the written `synonyms_open_tree_of_life` string
`"Zea mays; maize"` contains the canonical name as its first entry. -/
theorem C1_counterexample :
    format_scientific_name zeaRow.food_sci = "Zea mays" ∧
    fetch_synonyms_batch ["Zea mays"] [some [zeaSelfMatch]]
      = [("Zea mays", ["Zea mays", "maize"])] ∧
    "Zea mays" ∈ ["Zea mays", "maize"] ∧
    (runOpentree [zeaRow] oracleSelf).map Row.synonyms_open_tree_of_life
      = ["Zea mays; maize"] := by
  decide

/-- Claim C1 (amended): in the wiki pipeline, the cleaned synonym list for
a key never contains an entry equal to the key's canonical name under
case-insensitive comparison; the opentree pipeline does not perform this
exclusion, so the guarantee holds for the `synonyms_wiki_search` column
only. -/
theorem C1_wiki_no_canonical (canonical : String) (combined : List String) :
    ∀ s ∈ cleanSynonyms canonical combined, pyLower s ≠ pyLower canonical := by
  intro s hs
  exact (cleanLoop_mem (pyLower canonical) combined [] s hs).2.2.1

/-- Witness for `C1_wiki_no_canonical` at a concrete key and alias list. -/
theorem C1_wiki_no_canonical_witness :
    "maize" ∈ cleanSynonyms "Zea mays" ["maize", "ZEA MAYS"] ∧
    pyLower "maize" ≠ pyLower "Zea mays" :=
  ⟨by decide, C1_wiki_no_canonical "Zea mays" ["maize", "ZEA MAYS"] "maize" (by decide)⟩

/-- Claim C2: for every input row, every column other than the synonym
column targeted by the active pipeline is passed through unchanged: the
opentree run preserves the identifier, common name, scientific name and
the other two synonym columns, and the wiki merge preserves the
identifier, common name, scientific name and the other two synonym
columns; so runs targeting different synonym columns never clobber each
other's results. -/
theorem C2_frame_preservation (rows : List Row)
    (oracle : List String → Except Unit (List (Option (List OTMatch))))
    (keyToSyn : String × String → Option String) (i : Nat) :
    (((runOpentree rows oracle)[i]?).map Row.row_id = (rows[i]?).map Row.row_id ∧
     ((runOpentree rows oracle)[i]?).map Row.food_com = (rows[i]?).map Row.food_com ∧
     ((runOpentree rows oracle)[i]?).map Row.food_sci = (rows[i]?).map Row.food_sci ∧
     ((runOpentree rows oracle)[i]?).map Row.synonyms_wiki_search
       = (rows[i]?).map Row.synonyms_wiki_search ∧
     ((runOpentree rows oracle)[i]?).map Row.synonyms_ncbi
       = (rows[i]?).map Row.synonyms_ncbi) ∧
    (((wikiUpdateRows keyToSyn rows)[i]?).map Row.row_id = (rows[i]?).map Row.row_id ∧
     ((wikiUpdateRows keyToSyn rows)[i]?).map Row.food_com = (rows[i]?).map Row.food_com ∧
     ((wikiUpdateRows keyToSyn rows)[i]?).map Row.food_sci = (rows[i]?).map Row.food_sci ∧
     ((wikiUpdateRows keyToSyn rows)[i]?).map Row.synonyms_open_tree_of_life
       = (rows[i]?).map Row.synonyms_open_tree_of_life ∧
     ((wikiUpdateRows keyToSyn rows)[i]?).map Row.synonyms_ncbi
       = (rows[i]?).map Row.synonyms_ncbi) := by
  have hw : ∀ i, (wikiUpdateRows keyToSyn rows)[i]? = (rows[i]?).map (fun r : Row =>
      { r with synonyms_wiki_search :=
          (keyToSyn (build_key r.food_sci r.food_com (0 + i))).getD "" }) :=
    fun i => wikiUpdateRowsFrom_getElem keyToSyn rows 0 i
  refine ⟨⟨?_, ?_, ?_, ?_, ?_⟩, ⟨?_, ?_, ?_, ?_, ?_⟩⟩ <;>
    first
      | (rw [runOpentree_getElem]; cases rows[i]? <;> rfl)
      | (rw [hw i]; cases rows[i]? <;> rfl)

/-- Claim C3, counterexample: the claim says the cleaned synonym list of
every key contains no two case-insensitively equal entries. The opentree
pipeline deduplicates only exact duplicates (`OrderedDict.fromkeys`), so
taxon synonyms `"Maize"` and `"maize"` both survive and the written
string `"Maize; maize"` contains two case-insensitively equal entries. -/
theorem C3_counterexample :
    bestMatchSynonyms [zeaCaseMatch] = ["Maize", "maize"] ∧
    pyLower "Maize" = pyLower "maize" ∧
    "Maize" ≠ "maize" ∧
    (runOpentree [zeaRow] oracleCase).map Row.synonyms_open_tree_of_life
      = ["Maize; maize"] := by
  decide

/-- Claim C3 (amended): the wiki pipeline's cleaned synonym list contains
no two entries that are equal under case-insensitive comparison, keeping
first occurrences, and cleaning an already-clean list is a no-op; the
opentree pipeline deduplicates only exact duplicates (keeping first
occurrences), which is likewise idempotent, but case-insensitive
duplicates may survive in its column. -/
theorem C3_dedup_amended :
    (∀ (canonical : String) (l : List String),
      (cleanSynonyms canonical l).Pairwise (fun a b => pyLower a ≠ pyLower b) ∧
      cleanSynonyms canonical (cleanSynonyms canonical l) = cleanSynonyms canonical l) ∧
    (∀ l : List String, (dedupKeepFirst ([] : List String) l).Nodup ∧
      dedupKeepFirst [] (dedupKeepFirst [] l) = dedupKeepFirst [] l) :=
  ⟨fun _ _ => ⟨cleanLoop_pairwise _ _ _, cleanSynonyms_idem _ _⟩,
   fun _ => ⟨nodup_dedupKeepFirst _ _, dedupKeepFirst_idem _⟩⟩

/-- Claim C4: for every non-empty candidate list, `select_best_match`
works on the candidates sorted by descending confidence score (a stable
permutation of the input), picks them by the spec's tie-break contract
(first neither-synonym-nor-approximate, else first non-synonym, else the
top-scoring candidate), always returns one of the input candidates, and
on the spec's example `(0.9, approx), (0.8, clean), (0.95, synonym)`
selects the 0.8-score candidate. -/
theorem C4_select_best_match (cands : List OTMatch) (h : cands ≠ []) :
    (sortByScoreDesc cands).Perm cands ∧
    List.Sorted (fun a b => b.score ≤ a.score) (sortByScoreDesc cands) ∧
    select_best_match cands = selectBestMatchContract cands ∧
    (∃ m, select_best_match cands = some m ∧ m ∈ cands) ∧
    select_best_match [exApprox, exClean, exSyn] = some exClean := by
  have hperm : (sortByScoreDesc cands).Perm cands := List.perm_insertionSort _ _
  have hne : ¬cands.isEmpty := by simpa using h
  refine ⟨hperm, List.sorted_insertionSort _ _, ?_, ?_, by decide⟩
  · simp only [select_best_match, selectBestMatchContract]
    rw [if_neg hne, if_neg hne]
    cases h1 : (sortByScoreDesc cands).find?
        (fun m => !m.is_synonym && !m.is_approximate_match) with
    | some m => rfl
    | none =>
      cases h2 : (sortByScoreDesc cands).find? (fun m => !m.is_synonym) with
      | some m => rfl
      | none => rfl
  · simp only [select_best_match]
    rw [if_neg hne]
    cases h1 : (sortByScoreDesc cands).find?
        (fun m => !m.is_synonym && !m.is_approximate_match) with
    | some m => exact ⟨m, rfl, hperm.mem_iff.mp (List.mem_of_find?_eq_some h1)⟩
    | none =>
      cases h2 : (sortByScoreDesc cands).find? (fun m => !m.is_synonym) with
      | some m => exact ⟨m, rfl, hperm.mem_iff.mp (List.mem_of_find?_eq_some h2)⟩
      | none =>
        cases hs : sortByScoreDesc cands with
        | nil =>
          have hcn : cands = [] := (hs ▸ hperm).symm.eq_nil
          exact absurd hcn h
        | cons m t =>
          refine ⟨m, rfl, hperm.mem_iff.mp ?_⟩
          rw [hs]
          exact List.mem_cons_self m t

/-- Witness for `C4_select_best_match` at the spec's three-candidate
example. -/
theorem C4_witness :
    ([exApprox, exClean, exSyn] : List OTMatch) ≠ [] ∧
    select_best_match [exApprox, exClean, exSyn]
      = selectBestMatchContract [exApprox, exClean, exSyn] :=
  ⟨by decide, (C4_select_best_match [exApprox, exClean, exSyn] (by decide)).2.2.1⟩

/-- Claim C5: for every non-empty ranked fuzzy-search result list,
`search_entity_id` chooses by the spec's contract — the first result
whose label equals the query case-insensitively, else the first whose
matched text equals the query case-insensitively, else the top-ranked
result — and the chosen identifier always belongs to one of the
results. -/
theorem C5_search_entity_id (query : String) (results : List WSearchResult)
    (h : results ≠ []) :
    search_entity_id query results = searchSelectContract query results ∧
    (∃ r, r ∈ results ∧ search_entity_id query results = some r.id) := by
  have hne : ¬results.isEmpty := by simpa using h
  constructor
  · simp only [search_entity_id, searchSelectContract]
    rw [if_neg hne, if_neg hne]
    cases h1 : results.find? (fun r => pyLower (r.label.getD "") = pyLower query) with
    | some r => rfl
    | none =>
      cases h2 : results.find? (fun r => pyLower (r.match_text.getD "") = pyLower query) with
      | some r => rfl
      | none => rfl
  · simp only [search_entity_id]
    rw [if_neg hne]
    cases h1 : results.find? (fun r => pyLower (r.label.getD "") = pyLower query) with
    | some r => exact ⟨r, List.mem_of_find?_eq_some h1, rfl⟩
    | none =>
      cases h2 : results.find? (fun r => pyLower (r.match_text.getD "") = pyLower query) with
      | some r => exact ⟨r, List.mem_of_find?_eq_some h2, rfl⟩
      | none =>
        cases hs : results with
        | nil => exact absurd hs h
        | cons r t =>
          exact ⟨r, List.mem_cons_self r t, rfl⟩

/-- Witness for `C5_search_entity_id` on a concrete two-result response
where the second result's matched text equals the query. -/
theorem C5_witness :
    ([⟨some "Maize", none, "Q1"⟩, ⟨some "Corn", some "corn", "Q2"⟩] : List WSearchResult)
      ≠ [] ∧
    search_entity_id "corn" [⟨some "Maize", none, "Q1"⟩, ⟨some "Corn", some "corn", "Q2"⟩]
      = searchSelectContract "corn"
          [⟨some "Maize", none, "Q1"⟩, ⟨some "Corn", some "corn", "Q2"⟩] :=
  ⟨by decide, (C5_search_entity_id "corn"
      [⟨some "Maize", none, "Q1"⟩, ⟨some "Corn", some "corn", "Q2"⟩] (by decide)).1⟩

/-- Claim C6: `candidate_queries` returns a deduplicated ordered list of
non-empty strings preserving first-seen order — a sublist of the raw
candidate sequence (normalized scientific name, period-stripped variant,
rank-token-stripped variant, normalized common name) containing exactly
its non-empty members — and on scientific name `"Allium_cepa."` with
empty common name it returns exactly `["Allium cepa.", "Allium cepa"]`. -/
theorem C6_candidate_queries (scientific common : String) :
    (candidate_queries scientific common).Nodup ∧
    (∀ q ∈ candidate_queries scientific common, q ≠ "") ∧
    List.Sublist (candidate_queries scientific common) (rawCandidates scientific common) ∧
    (∀ q, q ∈ candidate_queries scientific common ↔
      q ∈ rawCandidates scientific common ∧ q ≠ "") ∧
    candidate_queries "Allium_cepa." "" = ["Allium cepa.", "Allium cepa"] := by
  refine ⟨nodup_dedupKeepFirst _ _, ?_, ?_, ?_, by decide⟩
  · intro q hq
    have hm := (mem_dedupKeepFirst _ _ q).mp hq
    have hf := List.mem_filter.mp hm.1
    simpa using hf.2
  · exact (dedupKeepFirst_sublist _ _).trans (List.filter_sublist _)
  · intro q
    unfold candidate_queries
    rw [mem_dedupKeepFirst]
    constructor
    · rintro ⟨hf, -⟩
      have hf2 := List.mem_filter.mp hf
      exact ⟨hf2.1, by simpa using hf2.2⟩
    · rintro ⟨hr, hne⟩
      exact ⟨List.mem_filter.mpr ⟨hr, by simpa using hne⟩, by simp⟩

/-- Witness for `C6_candidate_queries`: the period-stripped variant is a
member of the generated list and is non-empty. -/
theorem C6_witness :
    "Allium cepa" ∈ candidate_queries "Allium_cepa." "" ∧ "Allium cepa" ≠ "" :=
  ⟨by decide, (C6_candidate_queries "Allium_cepa." "").2.1 "Allium cepa" (by decide)⟩

/-- Claim C7: `build_key` yields exactly one key per record — keyed by
the non-empty normalized scientific name, else the non-empty normalized
common name, else a row-fallback key from the positional index whose tag
`"row"` can never equal a name key's tag; two records whose scientific
names differ only in separator (`"Zea_mays"` vs `"Zea mays"`) collapse to
the same key and therefore receive the same synonym string under the wiki
merge, for every possible `key_to_synonyms` table. -/
theorem C7_build_key :
    (∀ s1 c1 i1 s2 c2 i2, format_scientific_name s1 = format_scientific_name s2 →
      format_scientific_name s1 ≠ "" →
      build_key s1 c1 i1 = build_key s2 c2 i2) ∧
    (∀ s c i, (build_key s c i).1 = "sci" ∨ (build_key s c i).1 = "com" ∨
      ((build_key s c i).1 = "row" ∧ format_scientific_name s = "" ∧
        format_common_name c = "" ∧ (build_key s c i).2 = toString i)) ∧
    (∀ s1 c1 i1 s2 c2 i2, (build_key s1 c1 i1).1 = "row" →
      (build_key s2 c2 i2).1 ≠ "row" → build_key s1 c1 i1 ≠ build_key s2 c2 i2) ∧
    build_key "Zea_mays" "corn" 0 = ("sci", "Zea mays") ∧
    build_key "Zea mays" "maiz" 17 = ("sci", "Zea mays") ∧
    (∀ keyToSyn : String × String → Option String,
      (wikiUpdateRows keyToSyn [rowUnderscore, rowSpace]).map Row.synonyms_wiki_search
        = [(keyToSyn ("sci", "Zea mays")).getD "", (keyToSyn ("sci", "Zea mays")).getD ""]) := by
  refine ⟨?_, ?_, ?_, by decide, by decide, ?_⟩
  · intro s1 c1 i1 s2 c2 i2 heq hne
    have hne2 : format_scientific_name s2 ≠ "" := heq ▸ hne
    unfold build_key
    rw [if_pos hne, if_pos hne2, heq]
  · intro s c i
    unfold build_key
    by_cases h1 : format_scientific_name s ≠ ""
    · rw [if_pos h1]; exact Or.inl rfl
    · rw [if_neg h1]
      by_cases h2 : format_common_name c ≠ ""
      · rw [if_pos h2]; exact Or.inr (Or.inl rfl)
      · rw [if_neg h2]
        exact Or.inr (Or.inr ⟨rfl, not_not.mp h1, not_not.mp h2, rfl⟩)
  · intro s1 c1 i1 s2 c2 i2 h1 h2 heq
    exact h2 (by rw [← heq]; exact h1)
  · intro keyToSyn
    rfl

/-- Witness for `C7_build_key`: the separator-collapsing branch applied
to the two concrete rows. -/
theorem C7_witness :
    format_scientific_name "Zea_mays" = format_scientific_name "Zea mays" ∧
    format_scientific_name "Zea_mays" ≠ "" ∧
    build_key "Zea_mays" "corn" 0 = build_key "Zea mays" "maiz" 17 :=
  ⟨by decide, by decide,
    (C7_build_key).1 "Zea_mays" "corn" 0 "Zea mays" "maiz" 17 (by decide) (by decide)⟩

/-- Claim C8: a transport failure on a bulk lookup batch marks only that
batch's keys unmatched and never aborts the run, in either pipeline.
Opentree: the run is total, producing the full output table with all
non-target columns unchanged; a row whose name falls in any batch
receives exactly that batch's contribution, and when a batch's request
fails every row resolved by it carries the empty string in
`synonyms_open_tree_of_life` only. Wiki: in the bulk title-resolution
phase, a key is marked unmatched exactly when some failed batch contains
a title owning it, a key is bound only by a successful batch's own
response, an unresolved key's synonym value is the empty string, and the
merge still writes one row per input with the empty string in
`synonyms_wiki_search` only for rows whose key has no entry. -/
theorem C8_transport_failure (rows : List Row)
    (oracle : List String → Except Unit (List (Option (List OTMatch))))
    (worcl : List String → Except Unit (List (String × WEntity)))
    (keyToSyn : String × String → Option String) :
    (runOpentree rows oracle).length = rows.length ∧
    (∀ i : Nat,
          ((runOpentree rows oracle)[i]?).map Row.row_id = (rows[i]?).map Row.row_id ∧
          ((runOpentree rows oracle)[i]?).map Row.food_com = (rows[i]?).map Row.food_com ∧
          ((runOpentree rows oracle)[i]?).map Row.food_sci = (rows[i]?).map Row.food_sci ∧
          ((runOpentree rows oracle)[i]?).map Row.synonyms_wiki_search
            = (rows[i]?).map Row.synonyms_wiki_search ∧
          ((runOpentree rows oracle)[i]?).map Row.synonyms_ncbi
            = (rows[i]?).map Row.synonyms_ncbi) ∧
    (∀ b ∈ opentreeBatches rows, ∀ (i : Nat) (r : Row), rows[i]? = some r →
      format_scientific_name r.food_sci ∈ b →
      ((runOpentree rows oracle)[i]?).map Row.synonyms_open_tree_of_life =
        some ((kvGet (opentreeBatchKVs b (oracle b))
          (format_scientific_name r.food_sci)).getD "")) ∧
    (∀ b ∈ opentreeBatches rows, oracle b = .error () → ∀ (i : Nat) (r : Row), rows[i]? = some r →
      format_scientific_name r.food_sci ∈ b →
      ((runOpentree rows oracle)[i]?).map Row.synonyms_open_tree_of_life = some "") ∧
    (∀ key : String × String,
      key ∈ (wikiBulkRun rows worcl).unmatched ↔
        ∃ b ∈ wikiTitleBatches rows, worcl b = .error () ∧
          ∃ t ∈ b, key ∈ titleKeysOf (nameCandidatesList rows) t) ∧
    (∀ (key : String × String) (q : String),
      (wikiBulkRun rows worcl).keyQid key = some q →
        ∃ b ∈ wikiTitleBatches rows, ∃ entities, worcl b = .ok entities ∧
          ∃ t ∈ b, key ∈ titleKeysOf (nameCandidatesList rows) t ∧
            ∃ e, wikiTitleEntityMap entities t = some (q, e)) ∧
    (∀ key : String × String, keyToSynonymsValue key [] = "") ∧
    ((wikiUpdateRows keyToSyn rows).length = rows.length) ∧
    (∀ (i : Nat) (r : Row), rows[i]? = some r →
      keyToSyn (build_key r.food_sci r.food_com i) = none →
      ((wikiUpdateRows keyToSyn rows)[i]?).map Row.synonyms_wiki_search = some "") := by
  have hnodupU := uniqueNames_nodup rows
  obtain ⟨hbn, hbd, hbm⟩ := chunksOf_props CHUNK_SIZE (by norm_num [CHUNK_SIZE])
      (uniqueNames rows) hnodupU
  have hmain : ∀ b ∈ opentreeBatches rows, ∀ (i : Nat) (r : Row), rows[i]? = some r →
      format_scientific_name r.food_sci ∈ b →
      ((runOpentree rows oracle)[i]?).map Row.synonyms_open_tree_of_life =
        some ((kvGet (opentreeBatchKVs b (oracle b))
          (format_scientific_name r.food_sci)).getD "") := by
    intro b hb i r hri hmem
    have hfn_ne : format_scientific_name r.food_sci ≠ "" :=
      uniqueNames_ne_empty rows _ (hbm b hb _ hmem)
    rw [runOpentree_getElem, hri]
    show some (if format_scientific_name r.food_sci = "" then ""
      else ((synonymsCacheFold (opentreeBatches rows) oracle (fun _ => none))
        (format_scientific_name r.food_sci)).getD "") = _
    rw [if_neg hfn_ne,
      synonymsCacheFold_spec oracle (opentreeBatches rows) (fun _ => none) b
        (format_scientific_name r.food_sci) hbd hb (hbn b hb) hmem]
  have hwg : ∀ i, (wikiUpdateRows keyToSyn rows)[i]? = (rows[i]?).map (fun r : Row =>
      { r with synonyms_wiki_search :=
          (keyToSyn (build_key r.food_sci r.food_com (0 + i))).getD "" }) :=
    fun i => wikiUpdateRowsFrom_getElem keyToSyn rows 0 i
  refine ⟨runOpentree_length rows oracle, ?_, hmain, ?_, ?_, ?_, fun key => rfl,
    wikiUpdateRowsFrom_length keyToSyn rows 0, ?_⟩
  · intro i
    refine ⟨?_, ?_, ?_, ?_, ?_⟩ <;> (rw [runOpentree_getElem]; cases rows[i]? <;> rfl)
  · intro b hb herr i r hri hmem
    rw [hmain b hb i r hri hmem, herr, kvGet_of_error b _ hmem]
    rfl
  · intro key
    have hiff := wikiBulkFold_unmatched_mem (titleKeysOf (nameCandidatesList rows)) worcl
      (wikiTitleBatches rows) ⟨fun _ => none, [], []⟩ key
    rw [show wikiBulkRun rows worcl = wikiBulkFold (titleKeysOf (nameCandidatesList rows))
        worcl (wikiTitleBatches rows) ⟨fun _ => none, [], []⟩ from rfl, hiff]
    simp
  · intro key q h
    rcases wikiBulkFold_keyQid (titleKeysOf (nameCandidatesList rows)) worcl
        (wikiTitleBatches rows) ⟨fun _ => none, [], []⟩ key q h with h1 | h2
    · exact absurd h1 (by simp)
    · exact h2
  · intro i r hri hnone
    rw [hwg i, hri]
    show some ((keyToSyn (build_key r.food_sci r.food_com (0 + i))).getD "") = some ""
    rw [Nat.zero_add, hnone]
    rfl

/-- Witness for `C8_transport_failure`: a one-row table whose single
opentree batch request and single wiki title-batch request both fail; the
output row carries an empty opentree synonym string, the row's key is
marked unmatched by the wiki bulk phase, and the merge writes an empty
wiki synonym string for the keyless table. -/
theorem C8_witness :
    (["Zea mays"] ∈ opentreeBatches [zeaRow]) ∧
    oracleFail ["Zea mays"] = .error () ∧
    [zeaRow][0]? = some zeaRow ∧
    format_scientific_name zeaRow.food_sci ∈ ["Zea mays"] ∧
    ((runOpentree [zeaRow] oracleFail)[0]?).map Row.synonyms_open_tree_of_life
      = some "" ∧
    ("sci", "Zea mays") ∈ (wikiBulkRun [zeaRow] wikiOracleFail).unmatched ∧
    ((wikiUpdateRows (fun _ => none) [zeaRow])[0]?).map Row.synonyms_wiki_search
      = some "" :=
  ⟨by decide, rfl, rfl, by decide,
    (C8_transport_failure [zeaRow] oracleFail wikiOracleFail
        (fun _ => none)).2.2.2.1 ["Zea mays"] (by decide) rfl 0 zeaRow rfl (by decide),
    ((C8_transport_failure [zeaRow] oracleFail wikiOracleFail
        (fun _ => none)).2.2.2.2.1 ("sci", "Zea mays")).mpr
      ⟨["Zea_mays"], by decide, rfl, "Zea_mays", by decide, by decide⟩,
    (C8_transport_failure [zeaRow] oracleFail wikiOracleFail
        (fun _ => none)).2.2.2.2.2.2.2.2 0 zeaRow rfl rfl⟩

/-- Claim C10: for every input table, each pipeline's output contains
exactly one row per input row, in the same order: the lengths agree, the
row at every index exists exactly when the input row does, and it carries
the input row's identifier. -/
theorem C10_row_correspondence (rows : List Row)
    (oracle : List String → Except Unit (List (Option (List OTMatch))))
    (keyToSyn : String × String → Option String) :
    (runOpentree rows oracle).length = rows.length ∧
    (wikiUpdateRows keyToSyn rows).length = rows.length ∧
    (∀ i : Nat, ((runOpentree rows oracle)[i]?).map Row.row_id = (rows[i]?).map Row.row_id) ∧
    (∀ i : Nat, ((wikiUpdateRows keyToSyn rows)[i]?).map Row.row_id
      = (rows[i]?).map Row.row_id) ∧
    (∀ i : Nat, ((runOpentree rows oracle)[i]?).isSome = (rows[i]?).isSome) ∧
    (∀ i : Nat, ((wikiUpdateRows keyToSyn rows)[i]?).isSome = (rows[i]?).isSome) := by
  have hw : ∀ i, (wikiUpdateRows keyToSyn rows)[i]? = (rows[i]?).map (fun r : Row =>
      { r with synonyms_wiki_search :=
          (keyToSyn (build_key r.food_sci r.food_com (0 + i))).getD "" }) :=
    fun i => wikiUpdateRowsFrom_getElem keyToSyn rows 0 i
  have hwl : (wikiUpdateRows keyToSyn rows).length = rows.length :=
    wikiUpdateRowsFrom_length keyToSyn rows 0
  refine ⟨runOpentree_length rows oracle, hwl, ?_, ?_, ?_, ?_⟩ <;>
    intro i <;>
    first
      | (rw [runOpentree_getElem]; cases rows[i]? <;> rfl)
      | (rw [hw i]; cases rows[i]? <;> rfl)

end Foodome
